import Mathlib

/-!
Verification of the Coverage Simulator of the Beefy PCF model
(`buildModel` and the `monthlyData` aggregation in `src/src/App.jsx`).

JavaScript numbers are modelled as rationals (`ℚ`): every arithmetic
operation the simulator performs (addition, subtraction, division by the
premium-cost fraction) is exact on the inputs of the documented domain,
so `ℚ` is a faithful shallow embedding of the numeric behaviour.
`timescaleMonths` is an integer of `[12,60]` per the data model, hence
`Math.round(timescaleMonths * 30)` is the identity on the product and
`totalDays` is plain multiplication on `ℕ`.
-/

namespace BeefyPCF

/-- The configuration record passed to `buildModel` (App.jsx 134-141).
Documented ranges: `timescaleMonths ∈ [12,60]`, `premiumValue ∈ [1000,500000]`,
`purchaseCadenceDays ∈ [1,365]`, `policyDurationDays ∈ [1,365]`,
`bootstrapFunding ∈ [0,500000]`, `premiumCostPct ∈ [1,30]`. -/
structure SimConfig where
  timescaleMonths : ℕ
  premiumValue : ℚ
  purchaseCadenceDays : ℕ
  policyDurationDays : ℕ
  bootstrapFunding : ℚ
  premiumCostPct : ℚ
deriving Repr, DecidableEq

/-- One element of the emitted `data` array (App.jsx 177-182). -/
structure DailyPoint where
  day : ℕ
  purchase : ℚ
  cumulativePremiums : ℚ
  coverage : ℚ
deriving Repr, DecidableEq

/-- One entry of the `activePurchases` FIFO queue (App.jsx 164). -/
structure ActivePurchase where
  day : ℕ
  amount : ℚ
deriving Repr, DecidableEq

/-- The mutable state threaded through the daily loop (App.jsx 151-153). -/
structure SimState where
  cumulativePremiums : ℚ
  rollingPremiums : ℚ
  activePurchases : List ActivePurchase
deriving Repr, DecidableEq

/-- `totalDays = Math.round(timescaleMonths * 30)` (App.jsx 142);
`timescaleMonths` is an integer, so the round is the identity. -/
def totalDays (cfg : SimConfig) : ℕ := cfg.timescaleMonths * 30

/-- The `purchaseDays` array built by the loop of App.jsx 144-148:
`for (day = cadence; day <= totalDays; day += cadence) push(day)`
(the `day >= 0` guard is vacuous on naturals).  For `cadence ≥ 1` the loop
collects exactly `cadence, 2*cadence, …, (totalDays/cadence)*cadence`, which is
this closed form; `cadence = 0` is outside the documented domain (the JS loop
would not terminate there) and yields `[]` here, with all theorems about
configurations assuming `0 < purchaseCadenceDays`. -/
def purchaseDays (cadence total : ℕ) : List ℕ :=
  (List.range (total / cadence)).map (fun k => (k + 1) * cadence)

/-- The expiry `while` loop of App.jsx 167-173: pop the queue head and
subtract its amount from the rolling total while the head's age has reached
`policyDurationDays`.  (`day - head.day` is done on naturals: every queued
entry was pushed on a day `≤ day`, so no truncation occurs.) -/
def expireLoop (day dur : ℕ) : List ActivePurchase → ℚ → List ActivePurchase × ℚ
  | [], rolling => ([], rolling)
  | e :: rest, rolling =>
    if dur ≤ day - e.day then expireLoop day dur rest (rolling - e.amount)
    else (e :: rest, rolling)

/-- One iteration of the daily loop body (App.jsx 156-182): purchase,
push, expire, emit. -/
def stepDay (cfg : SimConfig) (pdays : List ℕ) (st : SimState) (day : ℕ) :
    SimState × DailyPoint :=
  let isPurchaseDay := day ∈ pdays
  let bootstrapPurchase : ℚ := if day = 0 then cfg.bootstrapFunding else 0
  let purchase : ℚ := if isPurchaseDay then cfg.premiumValue else 0
  let totalPurchase := purchase + bootstrapPurchase
  let st1 : SimState :=
    if 0 < totalPurchase then
      { cumulativePremiums := st.cumulativePremiums + totalPurchase
        rollingPremiums := st.rollingPremiums + totalPurchase
        activePurchases := st.activePurchases ++ [⟨day, totalPurchase⟩] }
    else st
  let res := expireLoop day cfg.policyDurationDays st1.activePurchases st1.rollingPremiums
  let premiumCost := cfg.premiumCostPct / 100
  let coverage : ℚ := if 0 < premiumCost then res.2 / premiumCost else 0
  (⟨st1.cumulativePremiums, res.2, res.1⟩,
   ⟨day, totalPurchase, st1.cumulativePremiums, coverage⟩)

/-- Run the daily loop for `n` consecutive days starting at `day`, emitting
one `DailyPoint` per day (the `data.push` of App.jsx 177). -/
def simFrom (cfg : SimConfig) (pdays : List ℕ) : SimState → ℕ → ℕ → List DailyPoint
  | _, _, 0 => []
  | st, day, n + 1 =>
    let r := stepDay cfg pdays st day
    r.2 :: simFrom cfg pdays r.1 (day + 1) n

/-- `buildModel` (App.jsx 134-186): iterate `day` from `0` to `totalDays`
inclusive from the zero state. -/
def buildModel (cfg : SimConfig) : List DailyPoint :=
  simFrom cfg (purchaseDays cfg.purchaseCadenceDays (totalDays cfg)) ⟨0, 0, []⟩ 0
    (totalDays cfg + 1)

/-- One row of the `monthlyData` aggregation (App.jsx 219-225); the
presentational `label` string is omitted (it never feeds back into any
computed value). -/
structure MonthPoint where
  monthIndex : ℕ
  purchases : ℚ
  cumulativePremiums : ℚ
  coverage : ℚ
deriving Repr, DecidableEq

/-- The initial `months` array (App.jsx 219-225). -/
def initMonths (n : ℕ) : List MonthPoint :=
  (List.range n).map (fun i => ⟨i, 0, 0, 0⟩)

/-- The body of the `data.forEach` of App.jsx 227-234: bucket index is
`⌊day/30⌋`; out-of-range indices are skipped (`if (!month) return`);
`purchases` accumulates, `cumulativePremiums` and `coverage` are overwritten. -/
def applyPoint (months : List MonthPoint) (p : DailyPoint) : List MonthPoint :=
  let monthIndex := p.day / 30
  match months.get? monthIndex with
  | none => months
  | some m =>
    months.set monthIndex
      ⟨m.monthIndex, m.purchases + p.purchase, p.cumulativePremiums, p.coverage⟩

/-- `monthlyData` (App.jsx 218-237). -/
def monthlyData (cfg : SimConfig) : List MonthPoint :=
  (buildModel cfg).foldl applyPoint (initMonths cfg.timescaleMonths)

/-! ### Closed forms for the loop state

The daily loop is characterised by closed-form descriptions of its state
after each day: the cumulative total, the active-purchase queue and the
rolling total are all determined by the purchase schedule alone. -/

/-- The purchase-day list used by `buildModel`. -/
def pdaysOf (cfg : SimConfig) : List ℕ :=
  purchaseDays cfg.purchaseCadenceDays (totalDays cfg)

/-- The total purchase booked on day `d` (`purchase + bootstrapPurchase`
of App.jsx 158-160). -/
def dailyPurchase (cfg : SimConfig) (d : ℕ) : ℚ :=
  (if d ∈ pdaysOf cfg then cfg.premiumValue else 0) +
    (if d = 0 then cfg.bootstrapFunding else 0)

/-- `x` if positive else `0`: only positive daily totals are booked
(`if (totalPurchase > 0)`, App.jsx 161). -/
def posPart (x : ℚ) : ℚ := if 0 < x then x else 0

/-- Closed form of `cumulativePremiums` after day `day`. -/
def cumAt (cfg : SimConfig) (day : ℕ) : ℚ :=
  ((List.range (day + 1)).map (fun d => posPart (dailyPurchase cfg d))).sum

/-- Closed form of the `activePurchases` queue after day `day`: the days
`≤ day` with a positive booked purchase whose age is still below the policy
duration, in chronological order. -/
def queueAt (cfg : SimConfig) (day : ℕ) : List ActivePurchase :=
  ((List.range (day + 1)).filter
      (fun d => decide (0 < dailyPurchase cfg d) &&
        decide (day - d < cfg.policyDurationDays))).map
    (fun d => ⟨d, dailyPurchase cfg d⟩)

/-- Closed form of `rollingPremiums` after day `day`. -/
def rollAt (cfg : SimConfig) (day : ℕ) : ℚ :=
  ((queueAt cfg day).map ActivePurchase.amount).sum

/-- Closed form of the emitted `coverage` on day `day`. -/
def coverageAt (cfg : SimConfig) (day : ℕ) : ℚ :=
  if 0 < cfg.premiumCostPct / 100 then rollAt cfg day / (cfg.premiumCostPct / 100)
  else 0

/-- Closed form of the `DailyPoint` emitted on day `day`. -/
def pointAt (cfg : SimConfig) (day : ℕ) : DailyPoint :=
  ⟨day, dailyPurchase cfg day, cumAt cfg day, coverageAt cfg day⟩

/-- Closed form of the loop state after day `day`. -/
def stateAt (cfg : SimConfig) (day : ℕ) : SimState :=
  ⟨cumAt cfg day, rollAt cfg day, queueAt cfg day⟩

/-- The loop state on entry to day `day` (zero before day `0`). -/
def preState (cfg : SimConfig) : ℕ → SimState
  | 0 => ⟨0, 0, []⟩
  | d + 1 => stateAt cfg d

/-- The sum over active purchases as the spec's coverage invariant states
it: every purchase made on a day `d ≤ day` whose age `day - d` is strictly
below the policy duration still counts (so a same-day purchase counts, an
entry aged exactly `policyDurationDays` no longer does). -/
def activeSum (cfg : SimConfig) (day : ℕ) : ℚ :=
  ((List.range (day + 1)).map
    (fun d => if day - d < cfg.policyDurationDays then dailyPurchase cfg d else 0)).sum

/-- The net effect of `applyPoint` on the bucket a point lands in. -/
def updMonth (mo : MonthPoint) (p : DailyPoint) : MonthPoint :=
  ⟨mo.monthIndex, mo.purchases + p.purchase, p.cumulativePremiums, p.coverage⟩

/-- The configuration of the spec's worked example: monthly 50k purchases,
90-day policies, 8% premium cost, no bootstrap, 12 months. -/
def exampleConfig : SimConfig := ⟨12, 50000, 30, 90, 0, 8⟩

/-- A one-month configuration used to instantiate the general theorems:
10-unit purchases every 2 days, 3-day policies, 5 bootstrap, 8% cost. -/
def smallConfig : SimConfig := ⟨1, 10, 2, 3, 5, 8⟩

/-- `smallConfig` with a zero premium-cost percentage. -/
def zeroPctConfig : SimConfig := ⟨1, 10, 2, 3, 5, 0⟩

/-- A configuration whose cadence (365) exceeds the horizon (360) but whose
bootstrap funding is positive. -/
def bootConfig : SimConfig := ⟨12, 50000, 365, 90, 1000, 8⟩

/-- A configuration whose cadence (365) exceeds the horizon (360) with zero
bootstrap funding. -/
def noPurchaseConfig : SimConfig := ⟨12, 50000, 365, 90, 0, 8⟩

/-! ### The expiry loop -/

/-- `expireLoop` drops the expired prefix of the queue and subtracts its
amounts from the rolling total. -/
theorem expireLoop_eq (day dur : ℕ) :
    ∀ (q : List ActivePurchase) (r : ℚ),
      expireLoop day dur q r =
        (q.dropWhile (fun e => decide (dur ≤ day - e.day)),
         r - ((q.takeWhile (fun e => decide (dur ≤ day - e.day))).map
              ActivePurchase.amount).sum)
  | [], r => by simp [expireLoop]
  | e :: rest, r => by
    by_cases h : dur ≤ day - e.day
    · simp only [expireLoop, if_pos h, expireLoop_eq day dur rest,
        List.dropWhile_cons, List.takeWhile_cons, decide_eq_true h]
      simp [sub_sub]
    · simp [expireLoop, if_neg h, List.dropWhile_cons, List.takeWhile_cons, h]

/-- On a chronologically sorted queue whose rolling total is the sum of its
amounts, the expiry loop returns exactly the still-active entries and their
sum: entries behind a live head are younger, hence also live. -/
theorem expireLoop_sorted (day dur : ℕ) (q : List ActivePurchase)
    (hs : q.Pairwise (fun a b => a.day ≤ b.day)) :
    expireLoop day dur q ((q.map ActivePurchase.amount).sum) =
      (q.filter (fun e => decide (day - e.day < dur)),
       ((q.filter (fun e => decide (day - e.day < dur))).map
          ActivePurchase.amount).sum) := by
  have hdf : q.dropWhile (fun e => decide (dur ≤ day - e.day)) =
      q.filter (fun e => decide (day - e.day < dur)) := by
    induction q with
    | nil => rfl
    | cons e rest ih =>
      rcases List.pairwise_cons.mp hs with ⟨he, hrest⟩
      by_cases h : dur ≤ day - e.day
      · simp [List.dropWhile_cons, List.filter_cons, h, Nat.not_lt.mpr h,
          ih hrest]
      · have hlt : day - e.day < dur := Nat.not_le.mp h
        simp only [List.dropWhile_cons, decide_eq_true_eq, if_neg h,
          List.filter_cons, decide_eq_true hlt, if_pos]
        rw [List.filter_eq_self.mpr]
        intro b hb
        exact decide_eq_true (Nat.lt_of_le_of_lt
          (Nat.sub_le_sub_left (he b hb) day) hlt)
  have hsplit := List.takeWhile_append_dropWhile
    (p := fun e => decide (dur ≤ day - e.day)) (l := q)
  rw [expireLoop_eq, hdf]
  refine Prod.ext rfl ?_
  have : ((q.map ActivePurchase.amount).sum) =
      ((q.takeWhile (fun e => decide (dur ≤ day - e.day))).map
          ActivePurchase.amount).sum +
        ((q.filter (fun e => decide (day - e.day < dur))).map
          ActivePurchase.amount).sum := by
    conv_lhs => rw [← hsplit]
    rw [hdf.symm, List.map_append, List.sum_append]
  simp [this]

/-! ### The queue's closed form -/

theorem dailyPurchase_def (cfg : SimConfig) (d : ℕ) :
    dailyPurchase cfg d =
      (if d ∈ pdaysOf cfg then cfg.premiumValue else 0) +
        (if d = 0 then cfg.bootstrapFunding else 0) := rfl

theorem cumAt_eq (cfg : SimConfig) (d : ℕ) :
    cumAt cfg d =
      ((List.range d).map (fun x => posPart (dailyPurchase cfg x))).sum +
        posPart (dailyPurchase cfg d) := by
  unfold cumAt
  rw [List.range_succ, List.map_append, List.sum_append]
  simp

theorem mem_queueAt_le (cfg : SimConfig) (day : ℕ) :
    ∀ e ∈ queueAt cfg day, e.day ≤ day := by
  intro e he
  rcases List.mem_map.mp he with ⟨x, hx, rfl⟩
  exact Nat.lt_succ_iff.mp (List.mem_range.mp (List.mem_of_mem_filter hx))

theorem queueAt_sorted (cfg : SimConfig) (day : ℕ) :
    (queueAt cfg day).Pairwise (fun a b => a.day ≤ b.day) := by
  refine List.Pairwise.map _ (fun a b h => ?_)
    (List.Pairwise.sublist (List.filter_sublist _) (List.pairwise_lt_range _))
  exact Nat.le_of_lt h

/-- Pushing day `d+1`'s purchase on the queue of day `d` and removing every
entry aged `≥ policyDurationDays` yields exactly the queue of day `d+1`. -/
theorem queueAt_succ (cfg : SimConfig) (d : ℕ) :
    (queueAt cfg d ++
        (if 0 < dailyPurchase cfg (d + 1) then
          [(⟨d + 1, dailyPurchase cfg (d + 1)⟩ : ActivePurchase)] else [])).filter
      (fun e => decide (d + 1 - e.day < cfg.policyDurationDays)) =
      queueAt cfg (d + 1) := by
  rw [List.filter_append]
  have hleft : (queueAt cfg d).filter
      (fun e => decide (d + 1 - e.day < cfg.policyDurationDays)) =
      ((List.range (d + 1)).filter
        (fun x => decide (0 < dailyPurchase cfg x) &&
          decide (d + 1 - x < cfg.policyDurationDays))).map
        (fun x => (⟨x, dailyPurchase cfg x⟩ : ActivePurchase)) := by
    unfold queueAt
    rw [List.filter_map, List.filter_filter]
    refine congrArg _ (List.filter_congr ?_)
    intro x hx
    have hxd : x ≤ d := Nat.lt_succ_iff.mp (List.mem_range.mp hx)
    by_cases hc : d + 1 - x < cfg.policyDurationDays
    · have hc' : d - x < cfg.policyDurationDays :=
        Nat.lt_of_le_of_lt (Nat.sub_le_sub_right (Nat.le_succ d) x) hc
      simp [hc, hc', Function.comp]
    · simp [hc, Function.comp]
  rw [hleft]
  unfold queueAt
  rw [List.range_succ (n := d + 1), List.filter_append, List.map_append]
  refine congrArg _ ?_
  by_cases hpos : 0 < dailyPurchase cfg (d + 1) <;>
    by_cases hdur : 0 < cfg.policyDurationDays <;>
      simp [hpos, hdur, Nat.sub_self, Nat.not_lt.mpr, List.filter_cons]

/-- Day `0`'s push-then-expire from the empty queue yields the queue of
day `0`. -/
theorem queueAt_zero (cfg : SimConfig) :
    (([] : List ActivePurchase) ++
        (if 0 < dailyPurchase cfg 0 then
          [(⟨0, dailyPurchase cfg 0⟩ : ActivePurchase)] else [])).filter
      (fun e => decide (0 - e.day < cfg.policyDurationDays)) =
      queueAt cfg 0 := by
  unfold queueAt
  by_cases hpos : 0 < dailyPurchase cfg 0 <;>
    by_cases hdur : 0 < cfg.policyDurationDays <;>
      simp [hpos, hdur, List.range_succ, List.filter_cons, Nat.not_lt.mpr]

/-! ### The step lemma: one loop iteration preserves the closed forms -/

theorem stepDay_spec (cfg : SimConfig) (d : ℕ) (st : SimState)
    (hcum : st.cumulativePremiums =
      ((List.range d).map (fun x => posPart (dailyPurchase cfg x))).sum)
    (hroll : st.rollingPremiums = (st.activePurchases.map ActivePurchase.amount).sum)
    (hmem : ∀ e ∈ st.activePurchases, e.day < d)
    (hsort : st.activePurchases.Pairwise (fun a b => a.day ≤ b.day))
    (hfilter : (st.activePurchases ++
        (if 0 < dailyPurchase cfg d then
          [(⟨d, dailyPurchase cfg d⟩ : ActivePurchase)] else [])).filter
        (fun e => decide (d - e.day < cfg.policyDurationDays)) = queueAt cfg d) :
    stepDay cfg (pdaysOf cfg) st d = (stateAt cfg d, pointAt cfg d) := by
  have htp : (if d ∈ pdaysOf cfg then cfg.premiumValue else 0) +
      (if d = 0 then cfg.bootstrapFunding else 0) = dailyPurchase cfg d :=
    (dailyPurchase_def cfg d).symm
  have hcumAt : st.cumulativePremiums + posPart (dailyPurchase cfg d) = cumAt cfg d := by
    rw [hcum, cumAt_eq]
  simp only [stepDay, htp]
  by_cases hpos : 0 < dailyPurchase cfg d
  · rw [if_pos hpos]
    have hQ1sort : (st.activePurchases ++
        [(⟨d, dailyPurchase cfg d⟩ : ActivePurchase)]).Pairwise
          (fun a b => a.day ≤ b.day) := by
      rw [List.pairwise_append]
      refine ⟨hsort, by simp, ?_⟩
      intro a ha b hb
      rw [List.mem_singleton] at hb
      subst hb
      exact Nat.le_of_lt (hmem a ha)
    have hexp := expireLoop_sorted d cfg.policyDurationDays _ hQ1sort
    rw [if_pos hpos] at hfilter
    rw [hfilter] at hexp
    have hsum : ((st.activePurchases ++
        [(⟨d, dailyPurchase cfg d⟩ : ActivePurchase)]).map ActivePurchase.amount).sum =
        st.rollingPremiums + dailyPurchase cfg d := by
      rw [List.map_append, List.sum_append, hroll]
      simp
    rw [hsum] at hexp
    rw [hexp]
    have hc : st.cumulativePremiums + dailyPurchase cfg d = cumAt cfg d := by
      rw [← hcumAt, posPart, if_pos hpos]
    rw [hc]
    rfl
  · rw [if_neg hpos]
    have hexp := expireLoop_sorted d cfg.policyDurationDays st.activePurchases hsort
    rw [if_neg hpos, List.append_nil] at hfilter
    rw [hfilter, ← hroll] at hexp
    rw [hexp]
    have hc : st.cumulativePremiums = cumAt cfg d := by
      rw [← hcumAt, posPart, if_neg hpos, add_zero]
    rw [hc]
    rfl

/-- One loop iteration carries the entry state of day `d` to the exit state
of day `d`, emitting exactly the closed-form point. -/
theorem stepDay_preState (cfg : SimConfig) (d : ℕ) :
    stepDay cfg (pdaysOf cfg) (preState cfg d) d = (stateAt cfg d, pointAt cfg d) := by
  cases d with
  | zero =>
    refine stepDay_spec cfg 0 ⟨0, 0, []⟩ (by simp) (by simp) (by simp)
      List.Pairwise.nil ?_
    exact queueAt_zero cfg
  | succ e =>
    refine stepDay_spec cfg (e + 1) (stateAt cfg e) rfl rfl ?_ (queueAt_sorted cfg e)
      (queueAt_succ cfg e)
    intro x hx
    exact Nat.lt_succ_of_le (mem_queueAt_le cfg e x hx)

/-- Running the loop from the entry state of day `d` for `n` days emits the
closed-form points of days `d, d+1, …, d+n-1`. -/
theorem simFrom_eq (cfg : SimConfig) :
    ∀ (n d : ℕ), simFrom cfg (pdaysOf cfg) (preState cfg d) d n =
      (List.range' d n).map (pointAt cfg)
  | 0, d => by simp [simFrom]
  | n + 1, d => by
    rw [List.range'_succ, List.map_cons, ← simFrom_eq cfg n (d + 1)]
    simp only [simFrom, stepDay_preState cfg d]
    rfl

/-- **Main characterisation**: `buildModel` emits exactly the closed-form
points of days `0` through `totalDays`. -/
theorem buildModel_eq (cfg : SimConfig) :
    buildModel cfg = (List.range (totalDays cfg + 1)).map (pointAt cfg) := by
  rw [List.range_eq_range']
  exact simFrom_eq cfg (totalDays cfg + 1) 0

/-! ### Derived facts about the daily series -/

theorem buildModel_length (cfg : SimConfig) :
    (buildModel cfg).length = totalDays cfg + 1 := by
  rw [buildModel_eq, List.length_map, List.length_range]

theorem buildModel_get? (cfg : SimConfig) (i : ℕ) (hi : i ≤ totalDays cfg) :
    (buildModel cfg).get? i = some (pointAt cfg i) := by
  rw [buildModel_eq, List.get?_map, List.get?_range (Nat.lt_succ_of_le hi)]
  rfl

theorem mem_buildModel (cfg : SimConfig) (p : DailyPoint) (hp : p ∈ buildModel cfg) :
    ∃ d ≤ totalDays cfg, p = pointAt cfg d := by
  rw [buildModel_eq] at hp
  rcases List.mem_map.mp hp with ⟨d, hd, rfl⟩
  exact ⟨d, Nat.lt_succ_iff.mp (List.mem_range.mp hd), rfl⟩

/-- Membership in the purchase-day list: the positive multiples of the
cadence that do not exceed the horizon. -/
theorem mem_purchaseDays (cadence total d : ℕ) (hc : 0 < cadence) :
    d ∈ purchaseDays cadence total ↔ 0 < d ∧ cadence ∣ d ∧ d ≤ total := by
  unfold purchaseDays
  rw [List.mem_map]
  constructor
  · rintro ⟨k, hk, rfl⟩
    rw [List.mem_range] at hk
    refine ⟨Nat.mul_pos (Nat.succ_pos k) hc, dvd_mul_left cadence (k + 1), ?_⟩
    exact Nat.le_trans
      (Nat.mul_le_mul_right cadence (Nat.succ_le_of_lt hk))
      (Nat.div_mul_le_self total cadence)
  · rintro ⟨hd, ⟨m, rfl⟩, hle⟩
    have hm : 0 < m := by
      rcases Nat.eq_zero_or_pos m with h | h
      · subst h; simp at hd
      · exact h
    refine ⟨m - 1, ?_, by rw [Nat.sub_add_cancel hm, Nat.mul_comm]⟩
    rw [List.mem_range]
    have : m ≤ total / cadence :=
      (Nat.le_div_iff_mul_le hc).mpr (by rw [Nat.mul_comm]; exact hle)
    omega

theorem purchaseDays_nodup (cadence total : ℕ) (hc : 0 < cadence) :
    (purchaseDays cadence total).Nodup := by
  refine List.Nodup.map ?_ (List.nodup_range _)
  intro a b hab
  exact Nat.succ_injective (Nat.eq_of_mul_eq_mul_right hc hab)

theorem purchaseDays_length (cadence total : ℕ) :
    (purchaseDays cadence total).length = total / cadence := by
  rw [purchaseDays, List.length_map, List.length_range]

theorem dailyPurchase_nonneg (cfg : SimConfig) (hv : 0 ≤ cfg.premiumValue)
    (hb : 0 ≤ cfg.bootstrapFunding) (d : ℕ) : 0 ≤ dailyPurchase cfg d := by
  rw [dailyPurchase_def]
  refine add_nonneg ?_ ?_ <;> split <;> simp [hv, hb]

theorem posPart_of_nonneg {x : ℚ} (hx : 0 ≤ x) : posPart x = x := by
  rw [posPart]
  rcases lt_or_eq_of_le hx with h | h
  · rw [if_pos h]
  · rw [← h]; simp

theorem posPart_nonneg (x : ℚ) : 0 ≤ posPart x := by
  rw [posPart]; split
  · exact le_of_lt (by assumption)
  · exact le_refl 0

/-- Summing `f` over a filtered list equals summing the guarded value over
the whole list. -/
theorem sum_map_filter_eq {α : Type} (p : α → Bool) (f : α → ℚ) :
    ∀ l : List α, ((l.filter p).map f).sum =
      (l.map (fun x => if p x then f x else 0)).sum
  | [] => rfl
  | a :: l => by
    by_cases h : p a <;>
      simp [List.filter_cons, h, sum_map_filter_eq p f l]

theorem sum_map_add {α : Type} (f g : α → ℚ) :
    ∀ l : List α, (l.map (fun x => f x + g x)).sum = (l.map f).sum + (l.map g).sum
  | [] => by simp
  | a :: l => by
    simp [sum_map_add f g l]
    ring

theorem rollAt_eq_activeSum (cfg : SimConfig) (hv : 0 ≤ cfg.premiumValue)
    (hb : 0 ≤ cfg.bootstrapFunding) (day : ℕ) :
    rollAt cfg day = activeSum cfg day := by
  unfold rollAt queueAt activeSum
  rw [List.map_map]
  have hcomp : (ActivePurchase.amount ∘
      fun d => (⟨d, dailyPurchase cfg d⟩ : ActivePurchase)) =
      fun d => dailyPurchase cfg d := rfl
  rw [hcomp]
  rw [sum_map_filter_eq
    (fun d => decide (0 < dailyPurchase cfg d) &&
      decide (day - d < cfg.policyDurationDays))
    (fun d => dailyPurchase cfg d)]
  refine congrArg _ (List.map_congr_left ?_)
  intro d _
  by_cases hp : 0 < dailyPurchase cfg d
  · simp [hp]
  · have h0 : dailyPurchase cfg d = 0 :=
      le_antisymm (not_lt.mp hp) (dailyPurchase_nonneg cfg hv hb d)
    simp [hp, h0]

theorem cumAt_succ (cfg : SimConfig) (i : ℕ) :
    cumAt cfg (i + 1) = cumAt cfg i + posPart (dailyPurchase cfg (i + 1)) :=
  cumAt_eq cfg (i + 1)

theorem cumAt_eq_sum (cfg : SimConfig) (hv : 0 ≤ cfg.premiumValue)
    (hb : 0 ≤ cfg.bootstrapFunding) (i : ℕ) :
    cumAt cfg i = ((List.range (i + 1)).map (dailyPurchase cfg)).sum := by
  unfold cumAt
  refine congrArg _ (List.map_congr_left ?_)
  intro d _
  exact posPart_of_nonneg (dailyPurchase_nonneg cfg hv hb d)

theorem sum_bootstrap_ite (b : ℚ) (n : ℕ) :
    ((List.range (n + 1)).map (fun d => if d = 0 then b else 0)).sum = b := by
  rw [List.range_succ_eq_map, List.map_cons, List.sum_cons, if_pos rfl,
    List.map_map]
  rw [List.sum_eq_zero, add_zero]
  intro x hx
  rcases List.mem_map.mp hx with ⟨y, _, rfl⟩
  simp

theorem sum_purchase_ite (cfg : SimConfig) (hcad : 0 < cfg.purchaseCadenceDays) :
    ((List.range (totalDays cfg + 1)).map
        (fun d => if d ∈ pdaysOf cfg then cfg.premiumValue else 0)).sum =
      cfg.premiumValue * (pdaysOf cfg).length := by
  have hsum := sum_map_filter_eq (fun d => decide (d ∈ pdaysOf cfg))
    (fun _ => cfg.premiumValue) (List.range (totalDays cfg + 1))
  simp only [decide_eq_true_eq] at hsum
  rw [← hsum, List.map_const', List.sum_replicate, nsmul_eq_mul, mul_comm]
  have hperm : List.Perm
      ((List.range (totalDays cfg + 1)).filter (fun d => decide (d ∈ pdaysOf cfg)))
      (pdaysOf cfg) := by
    refine (List.perm_ext_iff_of_nodup
      (List.Nodup.filter _ (List.nodup_range _))
      (purchaseDays_nodup _ _ hcad)).mpr ?_
    intro a
    rw [List.mem_filter, List.mem_range, decide_eq_true_eq]
    constructor
    · exact fun h => h.2
    · intro ha
      refine ⟨Nat.lt_succ_of_le ?_, ha⟩
      exact ((mem_purchaseDays _ _ a hcad).mp ha).2.2
  rw [hperm.length_eq]

theorem cumAt_final (cfg : SimConfig) (hcad : 0 < cfg.purchaseCadenceDays)
    (hv : 0 ≤ cfg.premiumValue) (hb : 0 ≤ cfg.bootstrapFunding) :
    cumAt cfg (totalDays cfg) =
      cfg.bootstrapFunding + cfg.premiumValue * (pdaysOf cfg).length := by
  rw [cumAt_eq_sum cfg hv hb]
  rw [List.map_congr_left (fun d _ => dailyPurchase_def cfg d), sum_map_add,
    sum_purchase_ite cfg hcad, sum_bootstrap_ite, add_comm]

/-! ### Closed form of the monthly aggregation -/

theorem get?_set_self {α : Type} (l : List α) (i : ℕ) (a b : α)
    (h : l.get? i = some a) : (l.set i b).get? i = some b := by
  rw [List.get?_eq_getElem?] at h ⊢
  rw [List.getElem?_set_self', h]
  rfl

theorem get?_set_ne {α : Type} (l : List α) {i j : ℕ} (h : i ≠ j) (b : α) :
    (l.set i b).get? j = l.get? j := by
  rw [List.get?_eq_getElem?, List.get?_eq_getElem?, List.getElem?_set_ne h]

theorem applyPoint_length (months : List MonthPoint) (p : DailyPoint) :
    (applyPoint months p).length = months.length := by
  simp only [applyPoint]
  cases hg : months.get? (p.day / 30) with
  | none => rfl
  | some m2 => simp

theorem foldl_applyPoint_length :
    ∀ (ps : List DailyPoint) (months : List MonthPoint),
      (List.foldl applyPoint months ps).length = months.length
  | [], _ => rfl
  | p :: ps, months => by
    rw [List.foldl_cons, foldl_applyPoint_length ps, applyPoint_length]

/-- Folding the daily points into the month array updates bucket `m` by
exactly the points whose day falls in bucket `m`, in order. -/
theorem foldl_applyPoint_get? :
    ∀ (ps : List DailyPoint) (months : List MonthPoint) (m : ℕ) (mo : MonthPoint),
      months.get? m = some mo →
      (List.foldl applyPoint months ps).get? m =
        some (List.foldl updMonth mo (ps.filter (fun p => p.day / 30 == m)))
  | [], _, _, _, h => by simpa using h
  | p :: ps, months, m, mo, h => by
    rw [List.foldl_cons, List.filter_cons]
    by_cases hm : p.day / 30 = m
    · have hbeq : (p.day / 30 == m) = true := by simp [hm]
      rw [hbeq, if_pos rfl, List.foldl_cons]
      have happ : applyPoint months p = months.set m (updMonth mo p) := by
        simp only [applyPoint]
        rw [hm, h]
        rfl
      rw [happ]
      exact foldl_applyPoint_get? ps _ m (updMonth mo p)
        (get?_set_self months m mo (updMonth mo p) h)
    · have hbeq : (p.day / 30 == m) = false := by simp [hm]
      rw [hbeq]
      simp only [Bool.false_eq_true, if_false]
      have happ : (applyPoint months p).get? m = some mo := by
        simp only [applyPoint]
        cases hg : months.get? (p.day / 30) with
        | none => exact h
        | some m2 =>
          rw [get?_set_ne months hm]
          exact h
      exact foldl_applyPoint_get? ps (applyPoint months p) m mo happ

theorem foldl_updMonth_monthIndex :
    ∀ (qs : List DailyPoint) (mo : MonthPoint),
      (List.foldl updMonth mo qs).monthIndex = mo.monthIndex
  | [], _ => rfl
  | q :: qs, mo => foldl_updMonth_monthIndex qs (updMonth mo q)

theorem foldl_updMonth_purchases :
    ∀ (qs : List DailyPoint) (mo : MonthPoint),
      (List.foldl updMonth mo qs).purchases =
        mo.purchases + (qs.map DailyPoint.purchase).sum
  | [], mo => by simp
  | q :: qs, mo => by
    rw [List.foldl_cons, foldl_updMonth_purchases qs, List.map_cons,
      List.sum_cons]
    show mo.purchases + q.purchase + _ = _
    ring

theorem initMonths_get? (n m : ℕ) (hm : m < n) :
    (initMonths n).get? m = some ⟨m, 0, 0, 0⟩ := by
  unfold initMonths
  rw [List.get?_map, List.get?_range hm]
  rfl

theorem range'_split (s a b : ℕ) :
    List.range' s (a + b) = List.range' s a ++ List.range' (s + a) b := by
  have h := List.range'_append s a b 1
  rw [one_mul] at h
  rw [Nat.add_comm a b, ← h]

/-- The daily points landing in bucket `m < timescaleMonths` are exactly
those of days `30m … 30m+29`. -/
theorem bucket_filter (cfg : SimConfig) (m : ℕ) (hm : m < cfg.timescaleMonths) :
    (buildModel cfg).filter (fun p => p.day / 30 == m) =
      (List.range' (30 * m) 30).map (pointAt cfg) := by
  rw [buildModel_eq, List.filter_map]
  have hcomp : ((fun p : DailyPoint => p.day / 30 == m) ∘ pointAt cfg) =
      fun d => d / 30 == m := rfl
  rw [hcomp]
  refine congrArg _ ?_
  obtain ⟨j, hj⟩ : ∃ j, cfg.timescaleMonths = m + 1 + j :=
    ⟨cfg.timescaleMonths - m - 1, by omega⟩
  have hN : totalDays cfg + 1 = 30 * m + (30 + (30 * j + 1)) := by
    unfold totalDays
    rw [hj]
    ring
  rw [hN, List.range_eq_range', range'_split, range'_split,
    List.filter_append, List.filter_append]
  rw [List.filter_eq_nil_iff.mpr ?_, List.filter_eq_self.mpr ?_,
    List.filter_eq_nil_iff.mpr ?_]
  · simp
  · intro d hd
    rw [List.mem_range'_1] at hd
    simp only [beq_iff_eq]
    omega
  · intro d hd
    rw [List.mem_range'_1] at hd
    simp only [beq_iff_eq, decide_eq_true_eq]
    omega
  · intro d hd
    rw [List.mem_range'_1] at hd
    simp only [beq_iff_eq]
    omega

/-- Closed form of the `monthlyData` row for bucket `m`: summed purchases
over days `30m … 30m+29` and the day-`30m+29` snapshots. -/
theorem monthly_get? (cfg : SimConfig) (m : ℕ) (hm : m < cfg.timescaleMonths) :
    (monthlyData cfg).get? m =
      some ⟨m, ((List.range' (30 * m) 30).map (dailyPurchase cfg)).sum,
        cumAt cfg (30 * m + 29), coverageAt cfg (30 * m + 29)⟩ := by
  unfold monthlyData
  rw [foldl_applyPoint_get? _ _ m ⟨m, 0, 0, 0⟩ (initMonths_get? _ m hm),
    bucket_filter cfg m hm]
  refine congrArg some ?_
  have h30 : List.range' (30 * m) 30 = List.range' (30 * m) 29 ++ [30 * m + 29] := by
    have h := @List.range'_concat 1 (30 * m) 29
    rw [one_mul] at h
    exact h
  rw [h30, List.map_append, List.foldl_append, List.map_append, List.sum_append]
  simp only [List.map_cons, List.map_nil, List.foldl_cons, List.foldl_nil,
    List.sum_cons, List.sum_nil]
  show updMonth _ (pointAt cfg (30 * m + 29)) = _
  have hupd : ∀ (X : MonthPoint) (P : DailyPoint),
      updMonth X P = ⟨X.monthIndex, X.purchases + P.purchase,
        P.cumulativePremiums, P.coverage⟩ := fun _ _ => rfl
  rw [hupd, foldl_updMonth_monthIndex, foldl_updMonth_purchases, List.map_map]
  have hcomp2 : (DailyPoint.purchase ∘ pointAt cfg) = dailyPurchase cfg := rfl
  rw [hcomp2]
  simp [pointAt]

theorem initMonths_length (n : ℕ) : (initMonths n).length = n := by
  unfold initMonths
  rw [List.length_map, List.length_range]

theorem monthlyData_length (cfg : SimConfig) :
    (monthlyData cfg).length = cfg.timescaleMonths := by
  unfold monthlyData
  rw [foldl_applyPoint_length, initMonths_length]

/-- A point whose bucket index is past the end of the month array is
skipped (`if (!month) return`). -/
theorem applyPoint_out_of_range (months : List MonthPoint) (p : DailyPoint)
    (h : months.length ≤ p.day / 30) : applyPoint months p = months := by
  simp only [applyPoint]
  rw [List.get?_eq_none.mpr h]

/-- Dropping the final daily point (day `totalDays`) does not change the
monthly aggregation: its bucket index `timescaleMonths` is out of range. -/
theorem monthlyData_dropLast (cfg : SimConfig) :
    monthlyData cfg =
      ((buildModel cfg).dropLast).foldl applyPoint (initMonths cfg.timescaleMonths) := by
  unfold monthlyData
  rw [buildModel_eq, List.range_succ, List.map_append, List.map_cons, List.map_nil]
  rw [List.foldl_append, List.dropLast_concat, List.foldl_cons, List.foldl_nil]
  apply applyPoint_out_of_range
  rw [foldl_applyPoint_length, initMonths_length]
  show cfg.timescaleMonths ≤ totalDays cfg / 30
  unfold totalDays
  rw [Nat.mul_div_cancel _ (by norm_num)]

/-! ### The claims -/

/-- C1: for every configuration (in the documented domain: positive cadence,
non-negative premium value and bootstrap, positive premium-cost percentage)
and every emitted day, the coverage equals the sum of the amounts of the
active purchases — those of age `day - entry.day` strictly below
`policyDurationDays`, a same-day purchase counting as active, an entry of age
exactly `policyDurationDays` no longer counting — divided by
`premiumCostPct/100`. -/
theorem C1_coverage_invariant (cfg : SimConfig)
    (hcad : 0 < cfg.purchaseCadenceDays) (hv : 0 ≤ cfg.premiumValue)
    (hb : 0 ≤ cfg.bootstrapFunding) (hpct : 0 < cfg.premiumCostPct) :
    ∀ i ≤ totalDays cfg,
      ((buildModel cfg).get? i).map DailyPoint.coverage =
        some (activeSum cfg i / (cfg.premiumCostPct / 100)) := by
  intro i hi
  rw [buildModel_get? cfg i hi]
  show some (coverageAt cfg i) = _
  refine congrArg some ?_
  unfold coverageAt
  rw [if_pos (div_pos hpct (by norm_num)), rollAt_eq_activeSum cfg hv hb]

set_option maxRecDepth 100000 in
theorem C1_witness :
    ((buildModel smallConfig).get? 2).map DailyPoint.coverage =
      some (activeSum smallConfig 2 / (smallConfig.premiumCostPct / 100)) ∧
    activeSum smallConfig 2 / (smallConfig.premiumCostPct / 100) = 375 / 2 :=
  ⟨C1_coverage_invariant smallConfig (by decide) (by decide) (by decide)
      (by decide) 2 (by decide),
   by with_unfolding_all rfl⟩

/-- C2: for every configuration in the documented domain, the emitted
`cumulativePremiums` of day `d` is the total of all purchases (bootstrap
included) made on days `≤ d`; it never decreases from one day to the next;
and on the final day it equals
`bootstrapFunding + premiumValue * (number of purchase days ≤ totalDays)`. -/
theorem C2_cumulative_invariant (cfg : SimConfig)
    (hcad : 0 < cfg.purchaseCadenceDays) (hv : 0 ≤ cfg.premiumValue)
    (hb : 0 ≤ cfg.bootstrapFunding) :
    (∀ i ≤ totalDays cfg,
      ((buildModel cfg).get? i).map DailyPoint.cumulativePremiums =
        some (((List.range (i + 1)).map (dailyPurchase cfg)).sum)) ∧
    (∀ i < totalDays cfg, ∀ x y,
      ((buildModel cfg).get? i).map DailyPoint.cumulativePremiums = some x →
      ((buildModel cfg).get? (i + 1)).map DailyPoint.cumulativePremiums = some y →
      x ≤ y) ∧
    ((buildModel cfg).get? (totalDays cfg)).map DailyPoint.cumulativePremiums =
      some (cfg.bootstrapFunding +
        cfg.premiumValue * ((pdaysOf cfg).length : ℚ)) := by
  refine ⟨?_, ?_, ?_⟩
  · intro i hi
    rw [buildModel_get? cfg i hi]
    show some (cumAt cfg i) = _
    exact congrArg some (cumAt_eq_sum cfg hv hb i)
  · intro i hi x y hx hy
    rw [buildModel_get? cfg i (le_of_lt hi)] at hx
    rw [buildModel_get? cfg (i + 1) hi] at hy
    have hx' : x = cumAt cfg i := (Option.some_inj.mp hx).symm
    have hy' : y = cumAt cfg (i + 1) := (Option.some_inj.mp hy).symm
    rw [hx', hy', cumAt_succ]
    exact le_add_of_nonneg_right (posPart_nonneg _)
  · rw [buildModel_get? cfg (totalDays cfg) (le_refl _)]
    show some (cumAt cfg (totalDays cfg)) = _
    exact congrArg some (cumAt_final cfg hcad hv hb)

set_option maxRecDepth 100000 in
theorem C2_witness :
    ((buildModel smallConfig).get? 30).map DailyPoint.cumulativePremiums =
      some (smallConfig.bootstrapFunding +
        smallConfig.premiumValue * ((pdaysOf smallConfig).length : ℚ)) ∧
    smallConfig.bootstrapFunding +
      smallConfig.premiumValue * ((pdaysOf smallConfig).length : ℚ) = 155 :=
  ⟨(C2_cumulative_invariant smallConfig (by with_unfolding_all decide)
      (by with_unfolding_all decide) (by with_unfolding_all decide)).2.2,
   by with_unfolding_all rfl⟩

/-- C3: for every configuration in the documented domain, `buildModel`
returns exactly `timescaleMonths * 30 + 1` points (the rounding of the spec
is the identity on an integral month count) and the `i`-th record carries
`day = i`, for `i` from `0` to `totalDays` — in particular the sequence is
ordered by day, ascending. -/
theorem C3_series_shape (cfg : SimConfig) (hcad : 0 < cfg.purchaseCadenceDays) :
    (buildModel cfg).length = cfg.timescaleMonths * 30 + 1 ∧
    ∀ i ≤ totalDays cfg,
      ((buildModel cfg).get? i).map DailyPoint.day = some i :=
  ⟨buildModel_length cfg, fun i hi => by rw [buildModel_get? cfg i hi]; rfl⟩

theorem C3_witness :
    (buildModel smallConfig).length = 31 ∧
    ((buildModel smallConfig).get? 5).map DailyPoint.day = some 5 :=
  ⟨(C3_series_shape smallConfig (by decide)).1,
   (C3_series_shape smallConfig (by decide)).2 5 (by decide)⟩

/-- C4: for every configuration in the documented domain and every day
`i ≤ totalDays`, the emitted `purchase` is `premiumValue` when `i` is a
positive multiple of the cadence not exceeding `totalDays`, plus the
bootstrap funding exactly when `i = 0` — so day `0` is never a regular
purchase day. -/
theorem C4_purchase_schedule (cfg : SimConfig)
    (hcad : 0 < cfg.purchaseCadenceDays) :
    ∀ i ≤ totalDays cfg,
      ((buildModel cfg).get? i).map DailyPoint.purchase =
        some ((if 0 < i ∧ cfg.purchaseCadenceDays ∣ i ∧ i ≤ totalDays cfg
            then cfg.premiumValue else 0) +
          (if i = 0 then cfg.bootstrapFunding else 0)) := by
  intro i hi
  rw [buildModel_get? cfg i hi]
  show some (dailyPurchase cfg i) = _
  refine congrArg some ?_
  rw [dailyPurchase_def]
  have h1 : (if i ∈ pdaysOf cfg then cfg.premiumValue else 0) =
      (if 0 < i ∧ cfg.purchaseCadenceDays ∣ i ∧ i ≤ totalDays cfg
        then cfg.premiumValue else 0) :=
    if_congr (mem_purchaseDays cfg.purchaseCadenceDays (totalDays cfg) i hcad)
      rfl rfl
  rw [h1]

set_option maxRecDepth 100000 in
theorem C4_witness :
    ((buildModel smallConfig).get? 2).map DailyPoint.purchase =
      some ((if 0 < 2 ∧ smallConfig.purchaseCadenceDays ∣ 2 ∧
            2 ≤ totalDays smallConfig
          then smallConfig.premiumValue else 0) +
        (if 2 = 0 then smallConfig.bootstrapFunding else 0)) ∧
    ((buildModel smallConfig).get? 2).map DailyPoint.purchase = some 10 :=
  ⟨C4_purchase_schedule smallConfig (by decide) 2 (by decide),
   by with_unfolding_all rfl⟩

set_option maxRecDepth 100000 in
/-- C5: on the spec's worked example (50k monthly purchases, 90-day
policies, 8% cost, no bootstrap, 12 months), day 30 carries
`purchase = 50000`, `cumulativePremiums = 50000`, `coverage = 625000`,
and day 120 carries `coverage = 1875000`: only the purchases of days 60,
90 and 120 (totalling 150000) are still active, the day-30 purchase having
expired at age 90. -/
theorem C5_example_points :
    (buildModel exampleConfig).get? 30 =
      some ⟨30, 50000, 50000, 625000⟩ ∧
    (buildModel exampleConfig).get? 120 =
      some ⟨120, 50000, 200000, 1875000⟩ :=
  ⟨by with_unfolding_all rfl, by with_unfolding_all rfl⟩

/-- C6: for every configuration in the documented domain, the monthly
aggregation has exactly `timescaleMonths` buckets; bucket `m` sums the
daily `purchase` amounts of the days falling in it (`⌊day/30⌋ = m`), and
takes its `cumulativePremiums` and `coverage` from the daily point of the
bucket's last day, `30m + 29` — a snapshot, not a sum. -/
theorem C6_monthly_aggregation (cfg : SimConfig)
    (hcad : 0 < cfg.purchaseCadenceDays) :
    (monthlyData cfg).length = cfg.timescaleMonths ∧
    ∀ m < cfg.timescaleMonths, ∀ q,
      (buildModel cfg).get? (30 * m + 29) = some q →
      (monthlyData cfg).get? m =
        some ⟨m,
          (((buildModel cfg).filter (fun p => p.day / 30 == m)).map
            DailyPoint.purchase).sum,
          q.cumulativePremiums, q.coverage⟩ := by
  refine ⟨monthlyData_length cfg, ?_⟩
  intro m hm q hq
  have hle : 30 * m + 29 ≤ totalDays cfg := by
    unfold totalDays
    omega
  rw [buildModel_get? cfg _ hle] at hq
  have hq' : q = pointAt cfg (30 * m + 29) := (Option.some_inj.mp hq).symm
  subst hq'
  rw [monthly_get? cfg m hm, bucket_filter cfg m hm, List.map_map]
  rfl

set_option maxRecDepth 100000 in
theorem C6_witness :
    (monthlyData smallConfig).length = 1 ∧
    (monthlyData smallConfig).get? 0 =
      some ⟨0,
        (((buildModel smallConfig).filter (fun p => p.day / 30 == 0)).map
          DailyPoint.purchase).sum,
        (⟨29, 0, 145, 125⟩ : DailyPoint).cumulativePremiums,
        (⟨29, 0, 145, 125⟩ : DailyPoint).coverage⟩ :=
  ⟨(C6_monthly_aggregation smallConfig (by decide)).1,
   (C6_monthly_aggregation smallConfig (by decide)).2 0 (by decide)
     ⟨29, 0, 145, 125⟩ (by with_unfolding_all rfl)⟩

/-- C7: for every configuration in the documented domain the final daily
point (day `totalDays`, whose bucket index `⌊totalDays/30⌋ =
timescaleMonths` is past the last bucket) is excluded from the monthly
aggregation: folding without it yields the same table, so a final-day
purchase is counted nowhere, and the last bucket's snapshots are those of
day `totalDays - 1`. -/
theorem C7_final_day_excluded (cfg : SimConfig)
    (hcad : 0 < cfg.purchaseCadenceDays) (hts : 0 < cfg.timescaleMonths) :
    monthlyData cfg =
      ((buildModel cfg).dropLast).foldl applyPoint
        (initMonths cfg.timescaleMonths) ∧
    ∀ q, (buildModel cfg).get? (totalDays cfg - 1) = some q →
      ((monthlyData cfg).get? (cfg.timescaleMonths - 1)).map
          MonthPoint.cumulativePremiums = some q.cumulativePremiums ∧
      ((monthlyData cfg).get? (cfg.timescaleMonths - 1)).map
          MonthPoint.coverage = some q.coverage := by
  refine ⟨monthlyData_dropLast cfg, ?_⟩
  intro q hq
  have hidx : 30 * (cfg.timescaleMonths - 1) + 29 = totalDays cfg - 1 := by
    unfold totalDays
    omega
  have hle : totalDays cfg - 1 ≤ totalDays cfg := Nat.sub_le _ _
  rw [buildModel_get? cfg _ hle] at hq
  have hq' : q = pointAt cfg (totalDays cfg - 1) := (Option.some_inj.mp hq).symm
  subst hq'
  rw [monthly_get? cfg (cfg.timescaleMonths - 1) (by omega), hidx]
  exact ⟨rfl, rfl⟩

set_option maxRecDepth 100000 in
theorem C7_witness :
    ((monthlyData smallConfig).get? 0).map MonthPoint.cumulativePremiums =
      some (145 : ℚ) ∧
    ((monthlyData smallConfig).get? 0).map MonthPoint.coverage =
      some (125 : ℚ) :=
  (C7_final_day_excluded smallConfig (by decide) (by decide)).2
    ⟨29, 0, 145, 125⟩ (by with_unfolding_all rfl)

set_option maxRecDepth 100000 in
/-- C8, counterexample: the claim quantifies over every configuration with
`purchaseCadenceDays > totalDays`, but a positive `bootstrapFunding` (which
the documented domain allows) still books a purchase on day 0:
`bootConfig` has cadence 365 > 360 days yet emits `purchase = 1000 ≠ 0` on
day 0 (and hence non-zero cumulative total and coverage as well). -/
theorem C8_counterexample :
    totalDays bootConfig < bootConfig.purchaseCadenceDays ∧
    ((buildModel bootConfig).get? 0).map DailyPoint.purchase = some 1000 ∧
    (1000 : ℚ) ≠ 0 :=
  ⟨by decide, by with_unfolding_all rfl, by norm_num⟩

/-- C8, amended: for every configuration with
`purchaseCadenceDays > totalDays` *and zero bootstrap funding*, every
emitted point has `purchase = 0`, `cumulativePremiums = 0` and
`coverage = 0`. -/
theorem C8_no_purchase_all_zero (cfg : SimConfig)
    (hcad : totalDays cfg < cfg.purchaseCadenceDays)
    (hb : cfg.bootstrapFunding = 0) :
    ∀ i ≤ totalDays cfg, (buildModel cfg).get? i = some ⟨i, 0, 0, 0⟩ := by
  have hpd : pdaysOf cfg = [] := by
    unfold pdaysOf purchaseDays
    rw [Nat.div_eq_of_lt hcad]
    rfl
  have htp : ∀ d, dailyPurchase cfg d = 0 := by
    intro d
    rw [dailyPurchase_def, hpd, hb]
    simp
  intro i hi
  rw [buildModel_get? cfg i hi]
  refine congrArg some ?_
  have hcum : cumAt cfg i = 0 := by
    unfold cumAt
    rw [List.sum_eq_zero]
    intro x hx
    rcases List.mem_map.mp hx with ⟨d, _, rfl⟩
    rw [htp d]
    simp [posPart]
  have hroll : rollAt cfg i = 0 := by
    unfold rollAt queueAt
    rw [List.filter_eq_nil_iff.mpr]
    · rfl
    · intro d _
      simp [htp d]
  have hcov : coverageAt cfg i = 0 := by
    unfold coverageAt
    rw [hroll]
    split
    · exact zero_div _
    · rfl
  unfold pointAt
  rw [htp i, hcum, hcov]

set_option maxRecDepth 100000 in
theorem C8_witness :
    totalDays noPurchaseConfig < noPurchaseConfig.purchaseCadenceDays ∧
    (buildModel noPurchaseConfig).get? 0 = some ⟨0, 0, 0, 0⟩ :=
  ⟨by decide,
   C8_no_purchase_all_zero noPurchaseConfig (by decide) (by with_unfolding_all rfl) 0
     (by decide)⟩

/-- C9: the simulator is a total function of its configuration — the
embedding always emits the full series — and with `premiumCostPct = 0` the
division guard defines every emitted coverage as `0`. -/
theorem C9_zero_premium_cost (cfg : SimConfig)
    (hcad : 0 < cfg.purchaseCadenceDays) (hpct : cfg.premiumCostPct = 0) :
    (buildModel cfg).length = totalDays cfg + 1 ∧
    ∀ p ∈ buildModel cfg, p.coverage = 0 := by
  refine ⟨buildModel_length cfg, ?_⟩
  intro p hp
  rcases mem_buildModel cfg p hp with ⟨d, _, rfl⟩
  show coverageAt cfg d = 0
  unfold coverageAt
  rw [hpct]
  norm_num

set_option maxRecDepth 100000 in
theorem C9_witness :
    (buildModel zeroPctConfig).length = 31 ∧
    (⟨0, 5, 5, 0⟩ : DailyPoint).coverage = 0 :=
  ⟨(C9_zero_premium_cost zeroPctConfig (by decide) (by with_unfolding_all rfl)).1,
   (C9_zero_premium_cost zeroPctConfig (by decide) (by with_unfolding_all rfl)).2
     ⟨0, 5, 5, 0⟩ (by with_unfolding_all decide)⟩

/-- C10: the simulator is deterministic — it reads nothing but its
argument, so two configurations equal field by field produce equal output
sequences. -/
theorem C10_deterministic (c1 c2 : SimConfig)
    (h1 : c1.timescaleMonths = c2.timescaleMonths)
    (h2 : c1.premiumValue = c2.premiumValue)
    (h3 : c1.purchaseCadenceDays = c2.purchaseCadenceDays)
    (h4 : c1.policyDurationDays = c2.policyDurationDays)
    (h5 : c1.bootstrapFunding = c2.bootstrapFunding)
    (h6 : c1.premiumCostPct = c2.premiumCostPct) :
    buildModel c1 = buildModel c2 := by
  cases c1
  cases c2
  simp only at h1 h2 h3 h4 h5 h6
  subst h1
  subst h2
  subst h3
  subst h4
  subst h5
  subst h6
  rfl

theorem C10_witness : buildModel smallConfig = buildModel smallConfig :=
  C10_deterministic smallConfig smallConfig rfl rfl rfl rfl rfl rfl

end BeefyPCF
